import Mathlib

/-!
# F4Vision core pipeline — verification development

Shallow embedding of the per-cycle computer-vision pipeline of
`F4Vision_helper.py` (class `F4Vision`): region selection, blob
detection (color range + 8-connected component extraction with size
filtering), cluster consolidation, temporal history, target selection,
the "perfect lock" correction-vector engine, manual override scaling,
and the 10-byte output encoder of `process`.

Real-number quantities that the Python source holds in IEEE doubles
(`move_x`, speeds, percentages) are modelled as rationals `ℚ`; machine
integers are `ℤ`/`ℕ`; Python `//` is `Int.fdiv`; Python `int(...)`
applied to a nonintegral quotient is truncation toward zero (`truncZ`);
`int.to_bytes(..., signed=True)` is fallible and modelled with `Option`
(`none` models the `OverflowError` the source would raise).
Frames are total pixel functions; `cv2.rectangle` mutation is modelled
as a functional update, and — as in the source, where `img0` is a numpy
view of `frame` taken before `cv2.rectangle(final, ...)` runs and read
afterwards — the show-bounding-box rectangle is applied to the frame
before the detector reads the crop.
-/

set_option maxRecDepth 100000

namespace F4Vision

/-- Python `int(q)` on a real quantity: truncation toward zero. -/
def truncZ (q : ℚ) : ℤ := if 0 ≤ q then ⌊q⌋ else ⌈q⌉

/-- The four big-endian base-256 digits of `n` (used for `n < 2^32`). -/
def bytes4 (n : ℕ) : List ℕ :=
  [n / 2 ^ 24 % 256, n / 2 ^ 16 % 256, n / 2 ^ 8 % 256, n % 256]

/-- Python `v.to_bytes(4, byteorder="big", signed=True)`:
two's-complement big-endian on success, `none` for the `OverflowError`
raised when `v` is outside the signed 32-bit range. -/
def toBytesBE4 (v : ℤ) : Option (List ℕ) :=
  if -(2 ^ 31) ≤ v ∧ v < 2 ^ 31 then some (bytes4 (v % 2 ^ 32).toNat) else none

/-- Python `n.to_bytes(2, byteorder="big", signed=False)`. -/
def toBytesBE2 (n : ℕ) : Option (List ℕ) :=
  if n < 2 ^ 16 then some [n / 256 % 256, n % 256] else none

/-- Big-endian recomposition of a byte string (unsigned). -/
def fromBytesBE (bs : List ℕ) : ℕ := bs.foldl (fun a b => a * 256 + b) 0

/-- Signed (two's-complement) reading of a 4-byte big-endian string. -/
def decodeSigned4 (bs : List ℕ) : ℤ :=
  let n := fromBytesBE bs
  if n < 2 ^ 31 then (n : ℤ) else (n : ℤ) - 2 ^ 32

/-- The button-name → numeric-id mapping of `get_aim_button_id`
(default `7` when the name is not in the mapping). -/
def buttonIdOf (name : String) : ℕ :=
  if name = "BUTTON_5" then 5
  else if name = "BUTTON_6" then 6
  else if name = "BUTTON_7" then 7
  else if name = "BUTTON_8" then 8
  else if name = "L1" then 5
  else if name = "L2" then 6
  else if name = "R1" then 7
  else if name = "R2" then 8
  else 7

/-- The payload-building tail of `process`: appends the two signed
32-bit fixed-point words `int(move * 0x10000)` and the unsigned 16-bit
button id to the output buffer `gcv`, big-endian.  `none` models the
`OverflowError` raised by `to_bytes` when a word is out of range (the
cycle then aborts without returning a completed buffer). -/
def processPayload (gcv : List ℕ) (rx ry : ℚ) (btn : ℕ) : Option (List ℕ) :=
  match toBytesBE4 (truncZ (rx * 65536)) with
  | none => none
  | some a =>
    match toBytesBE4 (truncZ (ry * 65536)) with
    | none => none
    | some b =>
      match toBytesBE2 btn with
      | none => none
      | some c => some (gcv ++ a ++ b ++ c)

/-! ## Data model -/

/-- A BGR pixel, three 8-bit channels. -/
abbrev Color := ℕ × ℕ × ℕ

/-- A frame: total pixel function, column then row. -/
abbrev Frame := ℕ → ℕ → Color

/-- The per-cycle settings snapshot (`cached_*` fields of `F4Vision`). -/
structure Settings where
  boundingBoxWidth : ℤ
  boundingBoxHeight : ℤ
  showBoundingBox : Bool
  adaptiveBoundingBox : Bool
  manualOveride : Bool
  speedX : ℚ
  speedY : ℚ
  aimSmoothing : Bool
  colorConfidence : ℚ
  aimOffsetX : ℤ
  aimOffsetY : ℤ
  manualOverridePercentage : ℚ
  espLinesEnabled : Bool
  espBoxEnabled : Bool
  crosshairEnabled : Bool
  showDistanceText : Bool
  enemyLocationEnabled : Bool
deriving DecidableEq

/-- An active detection pattern: inclusive BGR range and size bounds
(`color_lower_bgr`, `color_upper_bgr`, `size.width`, `size.height`). -/
structure Pattern where
  colorLower : Color
  colorUpper : Color
  minW : ℕ
  maxW : ℕ
  minH : ℕ
  maxH : ℕ
  sourceFile : String
deriving DecidableEq

/-- A detection dictionary as built by `detect_all_pixels`. -/
structure Det where
  x1 : ℤ
  y1 : ℤ
  x2 : ℤ
  y2 : ℤ
  confidence : ℚ
  width : ℤ
  height : ℤ
  area : ℤ
  cx : ℤ
  cy : ℤ
  pixelCount : ℤ
deriving DecidableEq

instance : Inhabited Det := ⟨⟨0, 0, 0, 0, 0, 0, 0, 0, 0, 0, 0⟩⟩

/-- One connected-component row of `cv2.connectedComponentsWithStats`:
left, top, width, height, pixel count. -/
structure CCStat where
  x : ℕ
  y : ℕ
  w : ℕ
  h : ℕ
  area : ℕ
deriving DecidableEq

/-- Drawing instructions (the `cv2` overlay calls, kept as inert data). -/
inductive DrawCmd where
  | rect (x1 y1 x2 y2 : ℤ) (c : Color) (t : ℤ)
  | line (ax ay bx by' : ℤ) (c : Color) (t : ℤ)
  | circle (x y r : ℤ) (c : Color) (t : ℤ)
  | text (s : String) (x y : ℤ)
  | textNum (s : String) (n : ℤ) (x y : ℤ)
deriving DecidableEq

/-! ## Blob detector -/

/-- `cv2.inRange`: inclusive per-channel range test. -/
def inRangePix (lo hi c : Color) : Bool :=
  decide (lo.1 ≤ c.1 ∧ c.1 ≤ hi.1) &&
  decide (lo.2.1 ≤ c.2.1 ∧ c.2.1 ≤ hi.2.1) &&
  decide (lo.2.2 ≤ c.2.2 ∧ c.2.2 ≤ hi.2.2)

/-- Initial labels: each cell its own row-major index. -/
def initLabels (W H : ℕ) : List (List ℕ) :=
  (List.range H).map fun y => (List.range W).map fun x => y * W + x

/-- Label lookup in a row-major label grid. -/
def getLab (g : List (List ℕ)) (x y : ℕ) : ℕ := (g.getD y []).getD x 0

/-- The eight neighbor offsets (8-connectivity). -/
def offsets8 : List (ℤ × ℤ) :=
  [(-1, -1), (0, -1), (1, -1), (-1, 0), (1, 0), (-1, 1), (0, 1), (1, 1)]

/-- Labels of the in-mask 8-neighbors of `(x, y)` that lie inside the
`W × H` grid. -/
def nbrLabels (W H : ℕ) (mask : ℕ → ℕ → Bool) (g : List (List ℕ))
    (x y : ℕ) : List ℕ :=
  offsets8.filterMap fun o =>
    let nx : ℤ := (x : ℤ) + o.1
    let ny : ℤ := (y : ℤ) + o.2
    if 0 ≤ nx ∧ nx < (W : ℤ) ∧ 0 ≤ ny ∧ ny < (H : ℤ) then
      if mask nx.toNat ny.toNat then some (getLab g nx.toNat ny.toNat)
      else none
    else none

/-- One min-label propagation step over the grid. -/
def ccStep (W H : ℕ) (mask : ℕ → ℕ → Bool) (g : List (List ℕ)) :
    List (List ℕ) :=
  (List.range H).map fun y => (List.range W).map fun x =>
    if mask x y then (nbrLabels W H mask g x y).foldl min (getLab g x y)
    else 0

/-- Bounded iteration. -/
def iterN {α : Type} (f : α → α) : ℕ → α → α
  | 0, a => a
  | n + 1, a => iterN f n (f a)

/-- Connected-component labels: `W*H` propagation steps reach the
fixpoint in which every in-mask cell holds the minimum row-major index
of its 8-connected component. -/
def ccLabels (W H : ℕ) (mask : ℕ → ℕ → Bool) : List (List ℕ) :=
  iterN (ccStep W H mask) (W * H) (initLabels W H)

/-- The in-mask cells of the grid, row-major. -/
def maskedCells (W H : ℕ) (mask : ℕ → ℕ → Bool) : List (ℕ × ℕ) :=
  (List.range H).bind fun y =>
    (List.range W).filterMap fun x => if mask x y then some (x, y) else none

/-- Distinct values in order of first occurrence. -/
def firstOccur (ls : List ℕ) : List ℕ :=
  ls.foldl (fun acc l => if l ∈ acc then acc else acc ++ [l]) []

/-- Bounding-box statistics of a nonempty cell list. -/
def statFor (cells : List (ℕ × ℕ)) : CCStat :=
  match cells with
  | [] => ⟨0, 0, 0, 0, 0⟩
  | c :: cs =>
    let minx := cs.foldl (fun a p => min a p.1) c.1
    let maxx := cs.foldl (fun a p => max a p.1) c.1
    let miny := cs.foldl (fun a p => min a p.2) c.2
    let maxy := cs.foldl (fun a p => max a p.2) c.2
    ⟨minx, miny, maxx - minx + 1, maxy - miny + 1, cells.length⟩

/-- `cv2.connectedComponentsWithStats` (8-connectivity) on the mask of
a `W × H` grid: one stats row per component, in order of first
(row-major) appearance; the background row (label 0 in OpenCV) is not
included, matching the source loop `for i in range(1, num_labels)`. -/
def componentsStats (W H : ℕ) (mask : ℕ → ℕ → Bool) : List CCStat :=
  let g := ccLabels W H mask
  let cells := maskedCells W H mask
  let reps := firstOccur (cells.map fun p => getLab g p.1 p.2)
  reps.map fun r => statFor (cells.filter fun p => getLab g p.1 p.2 == r)

/-- The detection dictionary built from one component's stats
(`detect_all_pixels`, append branch). -/
def mkDet (s : CCStat) : Det :=
  { x1 := s.x, y1 := s.y, x2 := (s.x : ℤ) + s.w, y2 := (s.y : ℤ) + s.h,
    confidence := 9 / 10, width := s.w, height := s.h, area := s.area,
    cx := (s.x : ℤ) + s.w / 2, cy := (s.y : ℤ) + s.h / 2,
    pixelCount := s.area }

/-- The size filter of `detect_all_pixels`. -/
def statInBounds (p : Pattern) (s : CCStat) : Bool :=
  decide (p.minW ≤ s.w ∧ s.w ≤ p.maxW ∧ p.minH ≤ s.h ∧ s.h ≤ p.maxH)

/-- `detect_all_pixels`: threshold the image against the pattern's
inclusive color range, extract 8-connected components, and keep exactly
the components whose width and height lie within the pattern's size
bounds (out-of-bounds components are logged and skipped — `continue`). -/
def detect_all_pixels (img : Frame) (W H : ℕ) (p : Pattern) : List Det :=
  ((componentsStats W H fun x y => inRangePix p.colorLower p.colorUpper (img x y)).filter
    (statInBounds p)).map mkDet

/-! ## Cluster consolidator -/

/-- Center of a detection as recomputed by `cluster_similar_enemies`:
`(x1 + x2) // 2, (y1 + y2) // 2` (Python floor division). -/
def detCenter (d : Det) : ℤ × ℤ := ((d.x1 + d.x2).fdiv 2, (d.y1 + d.y2).fdiv 2)

/-- Squared Euclidean distance between two centers. -/
def distSq (a b : ℤ × ℤ) : ℤ := (a.1 - b.1) ^ 2 + (a.2 - b.2) ^ 2

/-- The inner absorption loop: visit every indexed detection in input
order and absorb each not-yet-used one whose center lies within
Euclidean distance `< 10` of the seed center `c` (`distance < 10` on
integer centers is squared distance `< 100`). Returns the absorbed
members in visit order along with the updated used set. -/
def innerAbsorb (used : List ℕ) (c : ℤ × ℤ) :
    List (ℕ × Det) → List Det × List ℕ
  | [] => ([], used)
  | jd :: rest =>
    if jd.1 ∈ used then innerAbsorb used c rest
    else if distSq c (detCenter jd.2) < 100 then
      (jd.2 :: (innerAbsorb (used ++ [jd.1]) c rest).1,
       (innerAbsorb (used ++ [jd.1]) c rest).2)
    else innerAbsorb used c rest

/-- The outer loop of `cluster_similar_enemies`, returning the clusters
themselves (seed first, absorbed members in visit order). -/
def clusterGroups (all : List (ℕ × Det)) :
    List (ℕ × Det) → List ℕ → List (List Det)
  | [], _ => []
  | (i, d) :: rest, used =>
    if i ∈ used then clusterGroups all rest used
    else
      (d :: (innerAbsorb (used ++ [i]) (detCenter d) all).1) ::
        clusterGroups all rest (innerAbsorb (used ++ [i]) (detCenter d) all).2

/-- The clusters formed from a detection list (empty input: no work). -/
def clustersOf (dets : List Det) : List (List Det) :=
  clusterGroups dets.enum dets.enum []

/-- Python `max(cluster, key=lambda x: x['area'])`: the first member of
maximal area (later members replace the champion only on strict
increase). -/
def pickMaxArea (d : Det) (ds : List Det) : Det :=
  ds.foldl (fun best e => if best.area < e.area then e else best) d

/-- `cluster_similar_enemies`: greedy single-pass clustering in input
order, keeping from each cluster the largest-area member. -/
def cluster_similar_enemies (dets : List Det) : List Det :=
  if dets = [] then []
  else
    (clustersOf dets).map fun c =>
      match c with
      | [] => default
      | d :: ds => pickMaxArea d ds

/-! ## Pipeline stages of `predict` -/

/-- `detect_with_pxd_patterns` (minus file polling, which only swaps
the pattern list): concatenate per-pattern detections; when any were
found, consolidate them; an empty pattern list yields an empty set. -/
def detect_with_pxd_patterns (patterns : List Pattern) (img : Frame)
    (W H : ℕ) : List Det :=
  let all := patterns.bind (detect_all_pixels img W H)
  if all ≠ [] then cluster_similar_enemies all else all

/-- `deque(maxlen=5)` append. -/
def histAppend (hist : List (List Det)) (x : List Det) : List (List Det) :=
  let h := hist ++ [x]
  if 5 < h.length then h.drop (h.length - 5) else h

/-- `apply_temporal_filtering`: record the cycle's detection set in the
bounded history and return it unchanged (`[]` is recorded as `[]`). -/
def apply_temporal_filtering (hist : List (List Det)) (cur : List Det) :
    List (List Det) × List Det :=
  if cur = [] then (histAppend hist [], []) else (histAppend hist cur, cur)

/-- `rectangleScaling`: Python true division then `int(...)`. -/
def rectangleScaling (x1 y1 x2 y2 : ℤ) : ℤ × ℤ :=
  (truncZ (((x1 : ℚ) + (x2 : ℚ)) / 2), truncZ (((y1 : ℚ) + (y2 : ℚ)) / 2))

/-- `perfect_target_lock`: delta from the fixed crosshair (960, 540);
inside the 2-pixel dead zone return `(0, 0)` (the source compares
`sqrt(dx² + dy²) < 2`, equivalent on integers to `dx² + dy² < 4`);
otherwise scale each axis by `0.02 * speed` and apply the 0.5
minimum-movement floor per axis. -/
def perfect_target_lock (tx ty : ℤ) (sx sy : ℚ) : ℚ × ℚ :=
  let dx : ℤ := tx - 960
  let dy : ℤ := ty - 540
  if dx ^ 2 + dy ^ 2 < 4 then (0, 0)
  else
    let mx : ℚ := (dx : ℚ) * (2 / 100) * sx
    let my : ℚ := (dy : ℚ) * (2 / 100) * sy
    let mx' : ℚ :=
      if |mx| < 1 / 2 ∧ |(dx : ℚ)| > 1 / 2 then
        if 0 < dx then 1 / 2 else -(1 / 2)
      else mx
    let my' : ℚ :=
      if |my| < 1 / 2 ∧ |(dy : ℚ)| > 1 / 2 then
        if 0 < dy then 1 / 2 else -(1 / 2)
      else my
    (mx', my')

/-- The manual-override stage of `predict`: scale both axes by
`(100 - pct) / 100` exactly when the override flag is set and the
secondary trigger (`button_9`) is active. -/
def applyManualOverride (en : Bool) (button9 : ℤ) (pct rx ry : ℚ) :
    ℚ × ℚ :=
  if en = true ∧ 0 < button9 then
    (rx * ((100 - pct) / 100), ry * ((100 - pct) / 100))
  else (rx, ry)

/-- The ROI computation of `predict`: centered rectangle from the
settings dimensions, clipped to the 1920×1080 frame; when adaptive mode
is on and the aim trigger (`button_7`) held, the dimensions are first
scaled by `int(dim * 1.5)`. -/
def computeROI (w h : ℤ) (adaptive : Bool) (button7 : ℤ) :
    ℤ × ℤ × ℤ × ℤ :=
  let base : ℤ × ℤ × ℤ × ℤ :=
    (max 0 (960 - w.fdiv 2), max 0 (540 - h.fdiv 2),
     min 1920 (960 + w.fdiv 2), min 1080 (540 + h.fdiv 2))
  if adaptive = true ∧ 0 < button7 then
    let aw := truncZ ((w : ℚ) * (3 / 2))
    let ah := truncZ ((h : ℚ) * (3 / 2))
    (max 0 (960 - aw.fdiv 2), max 0 (540 - ah.fdiv 2),
     min 1920 (960 + aw.fdiv 2), min 1080 (540 + ah.fdiv 2))
  else base

/-- Functional model of `cv2.rectangle(frame, (x1,y1), (x2,y2), c, 1)`:
the one-pixel border of the rectangle is overwritten with `c`. -/
def drawRectOnFrame (f : Frame) (x1 y1 x2 y2 : ℤ) (c : Color) : Frame :=
  fun x y =>
    if (((x : ℤ) = x1 ∨ (x : ℤ) = x2) ∧ y1 ≤ (y : ℤ) ∧ (y : ℤ) ≤ y2) ∨
       (((y : ℤ) = y1 ∨ (y : ℤ) = y2) ∧ x1 ≤ (x : ℤ) ∧ (x : ℤ) ≤ x2)
    then c else f x y

/-- The numpy crop `frame[Y1:Y2, X1:X2]` as a re-indexed pixel
function. -/
def cropFrame (f : Frame) (X1 Y1 : ℤ) : Frame :=
  fun x y => f (X1.toNat + x) (Y1.toNat + y)

/-- The detector-input selection of `predict`: the ROI crop when the
clipped rectangle is nondegenerate, otherwise the full frame. -/
def selectCrop (f : Frame) (X1 Y1 X2 Y2 : ℤ) : Frame × ℕ × ℕ :=
  if Y1 < Y2 ∧ X1 < X2 then
    (cropFrame f X1 Y1, (X2 - X1).toNat, (Y2 - Y1).toNat)
  else (f, 1920, 1080)

def white : Color := (255, 255, 255)
def cyan : Color := (0, 255, 255)
def lightPurple : Color := (128, 128, 255)
def red : Color := (0, 0, 255)
def green : Color := (0, 255, 0)

/-- `draw_esp_elements`: the overlay instructions for the ESP lines,
boxes, distance text and crosshair (no-op when the enemy-location flag
is off).  `int(distance)` on the float square root is the integer
square root of the squared distance. -/
def draw_esp_elements (st : Settings) (dets : List Det) (rox roy : ℤ) :
    List DrawCmd :=
  if st.enemyLocationEnabled = false then []
  else
    (dets.bind fun d =>
      let x1 := d.x1 + rox
      let y1 := d.y1 + roy
      let x2 := d.x2 + rox
      let y2 := d.y2 + roy
      let cx := (x1 + x2).fdiv 2
      let cy := (y1 + y2).fdiv 2
      (if st.espLinesEnabled then [DrawCmd.line 960 540 cx cy cyan 2] else []) ++
      (if st.espBoxEnabled then [DrawCmd.rect x1 y1 x2 y2 lightPurple 2] else []) ++
      (if st.showDistanceText then
        [DrawCmd.textNum "px" (Nat.sqrt ((cx - 960) ^ 2 + (cy - 540) ^ 2).toNat) cx (y1 - 10)]
      else [])) ++
    (if st.crosshairEnabled then
      [DrawCmd.line (960 - 30) 540 (960 + 30) 540 green 2,
       DrawCmd.line 960 (540 - 30) 960 (540 + 30) green 2]
    else [])

/-- `simple_detection_sort` (defined in the source, invoked nowhere in
the per-cycle pipeline): sort by area descending and filter by the
cached color-confidence threshold. -/
def simple_detection_sort (threshold : ℚ) (dets : List Det) : List Det :=
  if dets = [] then []
  else
    ((dets.mergeSort fun a b => decide (b.area ≤ a.area)).filter
      fun d => decide (threshold ≤ d.confidence))

/-- Python `max(all_targets, key=lambda x: x['area'])` on a truthy
list. -/
def pickBest (l : List Det) : Option Det :=
  match l with
  | [] => none
  | d :: ds => some (pickMaxArea d ds)

/-- The result of one `predict` call. -/
structure PredictResult where
  draws : List DrawCmd
  detections : List Det
  best : Option Det
  rx : ℚ
  ry : ℚ
  history : List (List Det)
deriving DecidableEq

/-- The lock-visual overlay of `predict` (drawn only with a selected
target): red target circle always; with the aim trigger held, green
crosshair circle, lock line and status texts, else the detection
banner. -/
def lockVisuals (tcx tcy : ℤ) (button7 : ℤ) : List DrawCmd :=
  [DrawCmd.circle tcx tcy 8 red 2] ++
  (if 0 < button7 then
    let d2 := (tcx - 960) ^ 2 + (tcy - 540) ^ 2
    [DrawCmd.circle 960 540 8 green 2,
     DrawCmd.line 960 540 tcx tcy green 2,
     (if d2 < 9 then DrawCmd.text "PERFECT LOCK" (960 - 50) (540 - 20)
      else DrawCmd.text "LOCKING" (960 - 50) (540 - 20)),
     DrawCmd.textNum "Dist" (Nat.sqrt d2.toNat) (960 - 40) (540 - 40)]
  else [DrawCmd.text "TARGET DETECTED" (960 - 60) (540 - 20)])

/-- The tail of `predict` once the consolidated target set is fixed:
either report `(0, 0)` with no target, or lock onto the best target
(coordinates re-projected by the ROI origin, aim offset applied,
"perfect lock" vector, manual-override scaling, lock visuals). -/
def predictFinish (boxDraw highlight espDraws : List DrawCmd)
    (allTargets : List Det) (hist1 : List (List Det)) (X1 Y1 : ℤ)
    (aimOffX aimOffY : ℤ) (speedX speedY : ℚ) (overrideOn : Bool)
    (overridePct : ℚ) (button7 button9 : ℤ) :
    Option Det → PredictResult
  | none =>
    { draws := boxDraw ++ highlight ++ espDraws, detections := allTargets,
      best := none, rx := 0, ry := 0, history := hist1 }
  | some bt =>
    let c := rectangleScaling (bt.x1 + X1) (bt.y1 + Y1) (bt.x2 + X1) (bt.y2 + Y1)
    let tcx := c.1 + aimOffX
    let tcy := c.2 + aimOffY
    let r0 := perfect_target_lock tcx tcy speedX speedY
    let r1 := applyManualOverride overrideOn button9 overridePct r0.1 r0.2
    { draws := boxDraw ++ highlight ++ espDraws ++ lockVisuals tcx tcy button7,
      detections := allTargets, best := some bt,
      rx := r1.1, ry := r1.2, history := hist1 }

/-- The detection phase of `predict`: ROI, show-box frame mutation (the
numpy-view aliasing), crop selection and pattern detection. -/
def detectedOf (st : Settings) (patterns : List Pattern) (frame : Frame)
    (button7 : ℤ) : List Det :=
  let roi := computeROI st.boundingBoxWidth st.boundingBoxHeight
    st.adaptiveBoundingBox button7
  let frame1 := if st.showBoundingBox then
      drawRectOnFrame frame roi.1 roi.2.1 roi.2.2.1 roi.2.2.2 white
    else frame
  let sel := selectCrop frame1 roi.1 roi.2.1 roi.2.2.1 roi.2.2.2
  detect_with_pxd_patterns patterns sel.1 sel.2.1 sel.2.2

/-- `predict`: the per-cycle pipeline.  The settings snapshot, active
pattern list and history ring are passed explicitly (they are the
cached instance state of the source).  Note the aliasing the source
exhibits: the show-bounding-box rectangle is written into the frame
buffer, and the ROI crop — a numpy view — is read by the detector
afterwards, so that rectangle can overwrite ROI border pixels before
detection. -/
def predict (st : Settings) (patterns : List Pattern)
    (hist : List (List Det)) (frame : Frame)
    (button5 button7 button9 : ℤ) : PredictResult :=
  let roi := computeROI st.boundingBoxWidth st.boundingBoxHeight
    st.adaptiveBoundingBox button7
  let X1 := roi.1
  let Y1 := roi.2.1
  let X2 := roi.2.2.1
  let Y2 := roi.2.2.2
  let boxDraw : List DrawCmd :=
    if st.showBoundingBox then [DrawCmd.rect X1 Y1 X2 Y2 white 1] else []
  let detected := detectedOf st patterns frame button7
  let ht := apply_temporal_filtering hist detected
  let hist1 := ht.1
  let allTargets := ht.2
  let highlight : List DrawCmd := allTargets.map fun t =>
    DrawCmd.rect (t.x1 + X1) (t.y1 + Y1) (t.x2 + X1) (t.y2 + Y1) white 1
  let espDraws : List DrawCmd :=
    if st.enemyLocationEnabled = true ∧ allTargets ≠ [] then
      draw_esp_elements st allTargets X1 Y1
    else []
  predictFinish boxDraw highlight espDraws allTargets hist1 X1 Y1
    st.aimOffsetX st.aimOffsetY st.speedX st.speedY st.manualOveride
    st.manualOverridePercentage button7 button9 (pickBest allTargets)

/-- `process`: read buttons, watermark the frame (an overlay, modelled
as inert — it touches only the top text band), run `predict`, and
append the 10-byte payload to the output buffer. -/
def processOut (st : Settings) (aimButtonName : String)
    (patterns : List Pattern) (hist : List (List Det)) (frame : Frame)
    (button5 button7 button9 : ℤ) (gcv : List ℕ) : Option (List ℕ) :=
  let r := predict st patterns hist frame button5 button7 button9
  processPayload gcv r.rx r.ry (buttonIdOf aimButtonName)

/-! ## Spec-side definitions for the refinement comparisons -/

/-- The Region Selector as the spec words it: a rectangle of the
configured (integer-halved) dimensions centered on (960, 540), the
dimensions pre-scaled by 1.5 when adaptive mode is on and the trigger
active, clipped to `[0,1920] × [0,1080]`. -/
def specRegionSelector (w h : ℤ) (adaptive trigger : Bool) :
    ℤ × ℤ × ℤ × ℤ :=
  let dims : ℤ × ℤ :=
    if adaptive = true ∧ trigger = true then
      (truncZ ((w : ℚ) * (3 / 2)), truncZ ((h : ℚ) * (3 / 2)))
    else (w, h)
  (max 0 (960 - dims.1.fdiv 2), max 0 (540 - dims.2.fdiv 2),
   min 1920 (960 + dims.1.fdiv 2), min 1080 (540 + dims.2.fdiv 2))

/-- The per-axis rule of the Lock Vector Engine as the spec words it:
the axis move is `delta * 0.02 * speed`, raised to `±0.5` (sign of the
delta) when its magnitude is below `0.5` while the delta's magnitude
exceeds `0.5`. -/
def lockAxis (d : ℤ) (s : ℚ) : ℚ :=
  let m : ℚ := (d : ℚ) * (2 / 100) * s
  if |m| < 1 / 2 ∧ |(d : ℚ)| > 1 / 2 then
    if 0 < d then 1 / 2 else -(1 / 2)
  else m

/-! ## Concrete instances (used by witnesses and counterexamples) -/

/-- An all-black frame. -/
def frameBlack : Frame := fun _ _ => (0, 0, 0)

/-- The settings snapshot holding the source's initial cached values. -/
def stDefault : Settings :=
  { boundingBoxWidth := 720, boundingBoxHeight := 480,
    showBoundingBox := true, adaptiveBoundingBox := false,
    manualOveride := true, speedX := 9, speedY := 9,
    aimSmoothing := false, colorConfidence := 21 / 100,
    aimOffsetX := 0, aimOffsetY := 0, manualOverridePercentage := 50,
    espLinesEnabled := true, espBoxEnabled := true,
    crosshairEnabled := true, showDistanceText := true,
    enemyLocationEnabled := true }

/-- A uniform midtone frame. -/
def imgUniform : Frame := fun _ _ => (15, 15, 15)

/-- A pattern with wide size bounds over a midtone color range. -/
def patWide : Pattern := ⟨(10, 10, 10), (20, 20, 20), 1, 5, 1, 5, "w"⟩

/-- A pattern accepting only 2–3 pixel wide/high components. -/
def patC9 : Pattern := ⟨(10, 10, 10), (20, 20, 20), 2, 3, 2, 3, "p"⟩

/-- A small-ROI settings snapshot with every overlay flag off. -/
def stC9 : Settings :=
  { boundingBoxWidth := 8, boundingBoxHeight := 2,
    showBoundingBox := false, adaptiveBoundingBox := false,
    manualOveride := false, speedX := 9, speedY := 9,
    aimSmoothing := false, colorConfidence := 21 / 100,
    aimOffsetX := 0, aimOffsetY := 0, manualOverridePercentage := 50,
    espLinesEnabled := false, espBoxEnabled := false,
    crosshairEnabled := false, showDistanceText := false,
    enemyLocationEnabled := false }

/-- A frame whose only in-range pixels are a 2×2 blob at the top-left
corner of the ROI that `stC9` produces (x ∈ {956, 957}, y ∈ {539, 540}). -/
def frameC9 : Frame := fun x y =>
  if (x = 956 ∨ x = 957) ∧ (y = 539 ∨ y = 540) then (15, 15, 15)
  else (0, 0, 0)

/-- Two overlapping detections with centers 2 px apart. -/
def detA : Det := ⟨0, 0, 4, 4, 9 / 10, 4, 4, 16, 2, 2, 16⟩

def detB : Det := ⟨2, 0, 6, 4, 9 / 10, 4, 4, 12, 4, 2, 12⟩

/-! ## General lemmas -/

theorem truncZ_dist_lt_one (q : ℚ) : |(truncZ q : ℚ) - q| < 1 := by
  unfold truncZ
  split_ifs with h
  · have h1 : ((⌊q⌋ : ℤ) : ℚ) ≤ q := Int.floor_le q
    have h2 : q - 1 < ((⌊q⌋ : ℤ) : ℚ) := Int.sub_one_lt_floor q
    rw [abs_lt]
    exact ⟨by linarith, by linarith⟩
  · have h1 : q ≤ ((⌈q⌉ : ℤ) : ℚ) := Int.le_ceil q
    have h2 : ((⌈q⌉ : ℤ) : ℚ) < q + 1 := Int.ceil_lt_add_one q
    rw [abs_lt]
    exact ⟨by linarith, by linarith⟩

theorem fromBytesBE_bytes4 (n : ℕ) (h : n < 2 ^ 32) :
    fromBytesBE (bytes4 n) = n := by
  simp only [fromBytesBE, bytes4, List.foldl]
  omega

theorem toBytesBE4_spec (v : ℤ) (h1 : -(2 ^ 31) ≤ v) (h2 : v < 2 ^ 31) :
    toBytesBE4 v = some (bytes4 (v % 2 ^ 32).toNat) ∧
    (bytes4 (v % 2 ^ 32).toNat).length = 4 ∧
    decodeSigned4 (bytes4 (v % 2 ^ 32).toNat) = v := by
  refine ⟨by simp only [toBytesBE4]; rw [if_pos ⟨h1, h2⟩], rfl, ?_⟩
  have hn : (v % 2 ^ 32).toNat < 2 ^ 32 := by omega
  have hd := fromBytesBE_bytes4 _ hn
  simp only [decodeSigned4, hd]
  split_ifs with hlt <;> omega

theorem fixed_point_close (x : ℚ) (v : ℤ) (hv : v = truncZ (x * 65536)) :
    |(v : ℚ) / 65536 - x| < 1 / 65536 := by
  subst hv
  have h := truncZ_dist_lt_one (x * 65536)
  rw [show ((truncZ (x * 65536) : ℤ) : ℚ) / 65536 - x =
      (((truncZ (x * 65536) : ℤ) : ℚ) - x * 65536) / 65536 by ring]
  rw [abs_div, abs_of_pos (show (0 : ℚ) < 65536 by norm_num)]
  linarith

/-! ## C1 — Output Encoder -/

/-- **C1** (counterexample to the claim as stated): the encoder stores
Python `int(move * 0x10000)`, which truncates toward zero, not
`round(move * 65536)`.  The lock vector `(9.72, 0)` — produced by the
engine itself for a target at `(1014, 540)` with speeds `(9, 9)` —
encodes as the fixed-point word `637009`, while rounding would give
`637010`. -/
theorem c1_counterexample :
    perfect_target_lock 1014 540 9 9 = (243 / 25, 0) ∧
    processPayload [] (243 / 25) 0 7 =
      some [0, 9, 184, 81, 0, 0, 0, 0, 0, 7] ∧
    decodeSigned4 [0, 9, 184, 81] = 637009 ∧
    round ((243 : ℚ) / 25 * 65536) = 637010 := by
  refine ⟨by with_unfolding_all decide, by with_unfolding_all decide,
    by decide, ?_⟩
  norm_num [round_eq]

/-- **C1** (amended): for every cycle whose fixed-point words fit the
signed 32-bit range, `process` appends exactly 10 bytes to the output
buffer, big-endian: bytes 0–3 the signed 32-bit fixed-point
`trunc(move_x * 65536)` (truncation toward zero, not rounding),
bytes 4–7 `trunc(move_y * 65536)`, bytes 8–9 the unsigned 16-bit
activation-button id; decoding recovers `move_x`, `move_y` to within
`1/65536` and the button id exactly. -/
theorem c1_output_encoder_trunc_roundtrip (gcv : List ℕ) (rx ry : ℚ)
    (btn : ℕ)
    (hx1 : -(2 ^ 31) ≤ truncZ (rx * 65536))
    (hx2 : truncZ (rx * 65536) < 2 ^ 31)
    (hy1 : -(2 ^ 31) ≤ truncZ (ry * 65536))
    (hy2 : truncZ (ry * 65536) < 2 ^ 31)
    (hb : btn < 2 ^ 16) :
    ∃ p : List ℕ,
      processPayload gcv rx ry btn = some (gcv ++ p) ∧
      p.length = 10 ∧
      toBytesBE4 (truncZ (rx * 65536)) = some (p.take 4) ∧
      toBytesBE4 (truncZ (ry * 65536)) = some ((p.drop 4).take 4) ∧
      toBytesBE2 btn = some (p.drop 8) ∧
      |(decodeSigned4 (p.take 4) : ℚ) / 65536 - rx| < 1 / 65536 ∧
      |(decodeSigned4 ((p.drop 4).take 4) : ℚ) / 65536 - ry| < 1 / 65536 ∧
      fromBytesBE (p.drop 8) = btn := by
  obtain ⟨hex, _, hdx⟩ := toBytesBE4_spec _ hx1 hx2
  obtain ⟨hey, _, hdy⟩ := toBytesBE4_spec _ hy1 hy2
  refine ⟨bytes4 (truncZ (rx * 65536) % 2 ^ 32).toNat ++
    bytes4 (truncZ (ry * 65536) % 2 ^ 32).toNat ++
    [btn / 256 % 256, btn % 256], ?_, ?_, ?_, ?_, ?_, ?_, ?_, ?_⟩
  · rw [processPayload, hex, hey]
    simp only [toBytesBE2, if_pos hb]
    simp [bytes4, List.append_assoc]
  · simp [bytes4]
  · rw [hex]
    simp [bytes4]
  · rw [hey]
    simp [bytes4]
  · simp only [toBytesBE2, if_pos hb]
    simp [bytes4]
  · have : (bytes4 (truncZ (rx * 65536) % 2 ^ 32).toNat ++
        bytes4 (truncZ (ry * 65536) % 2 ^ 32).toNat ++
        [btn / 256 % 256, btn % 256]).take 4 =
        bytes4 (truncZ (rx * 65536) % 2 ^ 32).toNat := by
      simp [bytes4]
    rw [this, hdx]
    exact fixed_point_close rx _ rfl
  · have : ((bytes4 (truncZ (rx * 65536) % 2 ^ 32).toNat ++
        bytes4 (truncZ (ry * 65536) % 2 ^ 32).toNat ++
        [btn / 256 % 256, btn % 256]).drop 4).take 4 =
        bytes4 (truncZ (ry * 65536) % 2 ^ 32).toNat := by
      simp [bytes4]
    rw [this, hdy]
    exact fixed_point_close ry _ rfl
  · have : (bytes4 (truncZ (rx * 65536) % 2 ^ 32).toNat ++
        bytes4 (truncZ (ry * 65536) % 2 ^ 32).toNat ++
        [btn / 256 % 256, btn % 256]).drop 8 =
        [btn / 256 % 256, btn % 256] := by
      simp [bytes4]
    rw [this]
    simp only [fromBytesBE, List.foldl]
    omega

/-- Witness for `c1_output_encoder_trunc_roundtrip` at
`move = (9, 0)`, button id 7. -/
theorem c1_witness :
    (-(2 ^ 31) ≤ truncZ ((9 : ℚ) * 65536) ∧
     truncZ ((9 : ℚ) * 65536) < 2 ^ 31 ∧
     -(2 ^ 31) ≤ truncZ ((0 : ℚ) * 65536) ∧
     truncZ ((0 : ℚ) * 65536) < 2 ^ 31 ∧
     7 < 2 ^ 16) ∧
    ∃ p : List ℕ,
      processPayload [] (9 : ℚ) (0 : ℚ) 7 = some ([] ++ p) ∧
      p.length = 10 ∧
      toBytesBE4 (truncZ ((9 : ℚ) * 65536)) = some (p.take 4) ∧
      toBytesBE4 (truncZ ((0 : ℚ) * 65536)) = some ((p.drop 4).take 4) ∧
      toBytesBE2 7 = some (p.drop 8) ∧
      |(decodeSigned4 (p.take 4) : ℚ) / 65536 - 9| < 1 / 65536 ∧
      |(decodeSigned4 ((p.drop 4).take 4) : ℚ) / 65536 - 0| < 1 / 65536 ∧
      fromBytesBE (p.drop 8) = 7 :=
  ⟨⟨by with_unfolding_all decide, by with_unfolding_all decide,
    by with_unfolding_all decide, by with_unfolding_all decide, by decide⟩,
   c1_output_encoder_trunc_roundtrip [] 9 0 7 (by with_unfolding_all decide)
     (by with_unfolding_all decide) (by with_unfolding_all decide)
     (by with_unfolding_all decide) (by decide)⟩

/-! ## C2 — encoding overflow -/

/-- **C2** (counterexample to the claim as stated): at
`move_x = 32768` the fixed-point word is `2^31`, outside the signed
32-bit range; `to_bytes` raises `OverflowError` (modelled `none`): no
clamped 10-byte payload is emitted. -/
theorem c2_counterexample :
    processPayload [] (32768 : ℚ) 0 7 = none ∧
    truncZ ((32768 : ℚ) * 65536) = 2 ^ 31 := by
  exact ⟨by with_unfolding_all decide, by with_unfolding_all decide⟩

/-- **C2** (amended): the encoder does not clamp.  When the fixed-point
word of `move_x` or of `move_y` overflows the signed 32-bit range,
`to_bytes` raises `OverflowError` and the cycle aborts without emitting
a completed payload (`none`); `toBytesBE4` itself yields `none` on
every out-of-range word, and only in-range words yield bytes. -/
theorem c2_overflow_aborts (gcv : List ℕ) (rx ry : ℚ) (btn : ℕ)
    (h : ¬(-(2 ^ 31) ≤ truncZ (rx * 65536) ∧ truncZ (rx * 65536) < 2 ^ 31) ∨
         ¬(-(2 ^ 31) ≤ truncZ (ry * 65536) ∧ truncZ (ry * 65536) < 2 ^ 31)) :
    processPayload gcv rx ry btn = none ∧
    (∀ v : ℤ, ¬(-(2 ^ 31) ≤ v ∧ v < 2 ^ 31) → toBytesBE4 v = none) := by
  have hne : ∀ v : ℤ, ¬(-(2 ^ 31) ≤ v ∧ v < 2 ^ 31) → toBytesBE4 v = none := by
    intro v hv
    simp only [toBytesBE4, if_neg hv]
  refine ⟨?_, hne⟩
  rcases h with hx | hy
  · rw [processPayload, hne _ hx]
  · rw [processPayload, hne _ hy]
    cases toBytesBE4 (truncZ (rx * 65536)) <;> rfl

/-- Witness for `c2_overflow_aborts`, exercising both overflow sides:
`move_x = 32768` with `move_y` in range, and `move_y = 32768` with
`move_x` in range. -/
theorem c2_witness :
    ¬(-(2 ^ 31) ≤ truncZ ((32768 : ℚ) * 65536) ∧
      truncZ ((32768 : ℚ) * 65536) < 2 ^ 31) ∧
    processPayload [9] (32768 : ℚ) 0 7 = none ∧
    processPayload [9] (0 : ℚ) (32768 : ℚ) 7 = none :=
  ⟨by with_unfolding_all decide,
   (c2_overflow_aborts [9] 32768 0 7
     (Or.inl (by with_unfolding_all decide))).1,
   (c2_overflow_aborts [9] 0 32768 7
     (Or.inr (by with_unfolding_all decide))).1⟩

/-! ## C3 — Lock Vector Engine -/

/-- **C3**: for every target center and positive speeds, the lock
vector is `(0, 0)` when the squared Euclidean distance to the origin
(960, 540) is below `2²`; otherwise each axis is
`delta * 0.02 * speed`, raised to `±0.5` (sign of the delta) when its
magnitude is below `0.5` while the delta's magnitude exceeds `0.5`
(`lockAxis`); in particular a target at `(1010, 540)` with speeds
`(9, 9)` yields `(9.0, 0)`. -/
theorem c3_perfect_target_lock_spec (tx ty : ℤ) (sx sy : ℚ)
    (hsx : 0 < sx) (hsy : 0 < sy) :
    ((tx - 960) ^ 2 + (ty - 540) ^ 2 < 2 ^ 2 →
      perfect_target_lock tx ty sx sy = (0, 0)) ∧
    (¬((tx - 960) ^ 2 + (ty - 540) ^ 2 < 2 ^ 2) →
      perfect_target_lock tx ty sx sy =
        (lockAxis (tx - 960) sx, lockAxis (ty - 540) sy)) ∧
    perfect_target_lock 1010 540 9 9 = (9, 0) := by
  refine ⟨?_, ?_, ?_⟩
  · intro h
    have h4 : (tx - 960) ^ 2 + (ty - 540) ^ 2 < 4 := by
      have : (2 : ℤ) ^ 2 = 4 := by norm_num
      omega
    simp only [perfect_target_lock]
    rw [if_pos h4]
  · intro h
    have h4 : ¬((tx - 960) ^ 2 + (ty - 540) ^ 2 < 4) := by
      have : (2 : ℤ) ^ 2 = 4 := by norm_num
      omega
    simp only [perfect_target_lock, lockAxis]
    rw [if_neg h4]
  · with_unfolding_all decide

/-- Witness for `c3_perfect_target_lock_spec` at target `(1010, 540)`,
speeds `(9, 9)`. -/
theorem c3_witness :
    ((0 : ℚ) < 9) ∧
    (¬(((1010 : ℤ) - 960) ^ 2 + ((540 : ℤ) - 540) ^ 2 < 2 ^ 2) →
      perfect_target_lock 1010 540 9 9 =
        (lockAxis (1010 - 960) 9, lockAxis (540 - 540) 9)) ∧
    perfect_target_lock 1010 540 9 9 = (9, 0) :=
  ⟨by norm_num,
   (c3_perfect_target_lock_spec 1010 540 9 9 (by norm_num) (by norm_num)).2.1,
   (c3_perfect_target_lock_spec 1010 540 9 9 (by norm_num) (by norm_num)).2.2⟩

/-! ## C4 — manual override -/

/-- **C4**: the lock vector is scaled on both axes by
`(100 − pct) / 100` iff the override flag is set and the secondary
trigger (`button_9`) is active; the scaled output is (affine) linear in
the percentage; and `pct = 50` on a precomputed move `(9, 0)` gives
`(4.5, 0)`. -/
theorem c4_manual_override_spec (en : Bool) (b9 : ℤ) (pct rx ry : ℚ) :
    ((en = true ∧ 0 < b9) →
      applyManualOverride en b9 pct rx ry =
        (rx * ((100 - pct) / 100), ry * ((100 - pct) / 100))) ∧
    (¬(en = true ∧ 0 < b9) →
      applyManualOverride en b9 pct rx ry = (rx, ry)) ∧
    (∀ p1 p2 t : ℚ,
      (applyManualOverride true 1 (t * p1 + (1 - t) * p2) rx ry).1 =
        t * (applyManualOverride true 1 p1 rx ry).1 +
        (1 - t) * (applyManualOverride true 1 p2 rx ry).1 ∧
      (applyManualOverride true 1 (t * p1 + (1 - t) * p2) rx ry).2 =
        t * (applyManualOverride true 1 p1 rx ry).2 +
        (1 - t) * (applyManualOverride true 1 p2 rx ry).2) ∧
    applyManualOverride true 1 50 9 0 = (9 / 2, 0) := by
  have hred : ∀ p : ℚ, applyManualOverride true 1 p rx ry =
      (rx * ((100 - p) / 100), ry * ((100 - p) / 100)) := fun p => by
    unfold applyManualOverride
    rw [if_pos (⟨rfl, by norm_num⟩ : true = true ∧ (0 : ℤ) < 1)]
  refine ⟨fun h => by simp only [applyManualOverride, if_pos h],
          fun h => by simp only [applyManualOverride, if_neg h], ?_, ?_⟩
  · intro p1 p2 t
    rw [hred, hred, hred]
    dsimp only
    exact ⟨by ring, by ring⟩
  · unfold applyManualOverride
    rw [if_pos (⟨rfl, by norm_num⟩ : true = true ∧ (0 : ℤ) < 1)]
    norm_num [Prod.ext_iff]

/-- Witness for `c4_manual_override_spec`: override on, trigger held,
`pct = 50`, precomputed move `(9, 0)`. -/
theorem c4_witness :
    (true = true ∧ (0 : ℤ) < 1) ∧
    applyManualOverride true 1 50 9 0 =
      (9 * ((100 - 50) / 100), 0 * ((100 - 50) / 100)) :=
  ⟨⟨rfl, by norm_num⟩,
   (c4_manual_override_spec true 1 50 9 0).1 ⟨rfl, by norm_num⟩⟩

/-! ## C5 — Blob Detector size bounds -/

/-- **C5**: every Detection built by the Blob Detector satisfies
`min_width ≤ width ≤ max_width` and `min_height ≤ height ≤ max_height`
of the pattern's size bounds at creation time, and a connected
component whose width or height falls outside the bounds never appears
in the returned list. -/
theorem c5_blob_detector_size_bounds (img : Frame) (W H : ℕ)
    (p : Pattern) :
    (∀ d ∈ detect_all_pixels img W H p,
      (p.minW : ℤ) ≤ d.width ∧ d.width ≤ (p.maxW : ℤ) ∧
      (p.minH : ℤ) ≤ d.height ∧ d.height ≤ (p.maxH : ℤ)) ∧
    (∀ s ∈ componentsStats W H
        (fun x y => inRangePix p.colorLower p.colorUpper (img x y)),
      statInBounds p s = false →
        mkDet s ∉ detect_all_pixels img W H p) := by
  constructor
  · intro d hd
    rw [detect_all_pixels] at hd
    obtain ⟨s, hs, rfl⟩ := List.mem_map.mp hd
    have hb := (List.mem_filter.mp hs).2
    rw [statInBounds] at hb
    have hc := of_decide_eq_true hb
    refine ⟨?_, ?_, ?_, ?_⟩ <;>
      simp only [mkDet] <;> exact_mod_cast
        (by omega : _ )
  · intro s _ hfalse hmem
    rw [detect_all_pixels] at hmem
    obtain ⟨s', hs', heq⟩ := List.mem_map.mp hmem
    have hb := (List.mem_filter.mp hs').2
    have hw' : (s'.w : ℤ) = (s.w : ℤ) := congrArg Det.width heq
    have hh' : (s'.h : ℤ) = (s.h : ℤ) := congrArg Det.height heq
    have hw : s'.w = s.w := by exact_mod_cast hw'
    have hh : s'.h = s.h := by exact_mod_cast hh'
    rw [statInBounds, hw, hh] at hb
    rw [statInBounds] at hfalse
    rw [hb] at hfalse
    cases hfalse

/-- Witness for `c5_blob_detector_size_bounds`: a uniform 3×3 in-range
image yields the single detection of the full 3×3 component, within
`patWide`'s bounds. -/
theorem c5_witness :
    mkDet ⟨0, 0, 3, 3, 9⟩ ∈ detect_all_pixels imgUniform 3 3 patWide ∧
    ((patWide.minW : ℤ) ≤ (mkDet ⟨0, 0, 3, 3, 9⟩).width ∧
     (mkDet ⟨0, 0, 3, 3, 9⟩).width ≤ (patWide.maxW : ℤ) ∧
     (patWide.minH : ℤ) ≤ (mkDet ⟨0, 0, 3, 3, 9⟩).height ∧
     (mkDet ⟨0, 0, 3, 3, 9⟩).height ≤ (patWide.maxH : ℤ)) :=
  ⟨by with_unfolding_all decide,
   (c5_blob_detector_size_bounds imgUniform 3 3 patWide).1 _
     (by with_unfolding_all decide)⟩

/-! ## C6 — Cluster Consolidator -/

theorem pickMaxArea_cons (d e : Det) (ds : List Det) :
    pickMaxArea d (e :: ds) = pickMaxArea (if d.area < e.area then e else d) ds :=
  rfl

/-- `max(cluster, key=area)` returns a member whose area dominates the
cluster, and it is the first member attaining that area. -/
theorem pickMaxArea_spec (ds : List Det) : ∀ d : Det,
    pickMaxArea d ds ∈ d :: ds ∧
    (∀ e ∈ d :: ds, e.area ≤ (pickMaxArea d ds).area) ∧
    ∃ i, ∃ h : i < (d :: ds).length,
      (d :: ds).get ⟨i, h⟩ = pickMaxArea d ds ∧
      ∀ e ∈ (d :: ds).take i, e.area < (pickMaxArea d ds).area := by
  induction ds with
  | nil =>
    intro d
    refine ⟨.head _, ?_, 0, by simp, rfl, by simp⟩
    intro e he
    rcases List.mem_cons.mp he with rfl | h
    · exact le_refl _
    · cases h
  | cons e tl ih =>
    intro d
    rw [pickMaxArea_cons]
    by_cases hde : d.area < e.area
    · rw [if_pos hde]
      obtain ⟨hmem, hub, i, hi, hget, hpre⟩ := ih e
      have hd_lt : d.area < (pickMaxArea e tl).area :=
        lt_of_lt_of_le hde (hub e (.head _))
      refine ⟨.tail _ hmem, ?_, i + 1, by simpa using hi, hget, ?_⟩
      · intro x hx
        rcases List.mem_cons.mp hx with rfl | hx
        · exact le_of_lt hd_lt
        · exact hub x hx
      · intro x hx
        rw [List.take_succ_cons] at hx
        rcases List.mem_cons.mp hx with rfl | hx
        · exact hd_lt
        · exact hpre x hx
    · rw [if_neg hde]
      obtain ⟨hmem, hub, i, hi, hget, hpre⟩ := ih d
      have hub' : ∀ x ∈ d :: e :: tl, x.area ≤ (pickMaxArea d tl).area := by
        intro x hx
        rcases List.mem_cons.mp hx with rfl | hx
        · exact hub x (.head _)
        · rcases List.mem_cons.mp hx with rfl | hx
          · exact le_trans (le_of_not_lt hde) (hub d (.head _))
          · exact hub x (.tail _ hx)
      refine ⟨?_, hub', ?_⟩
      · rcases List.mem_cons.mp hmem with heq | h
        · rw [heq]
          exact .head _
        · exact .tail _ (.tail _ h)
      · rcases i with _ | j
        · exact ⟨0, by simp, hget, by simp⟩
        · have hj : j + 2 < (d :: e :: tl).length := by
            simp only [List.length_cons] at hi ⊢
            omega
          have hdlt : d.area < (pickMaxArea d tl).area := by
            apply hpre
            rw [List.take_succ_cons]
            exact .head _
          refine ⟨j + 2, hj, ?_, ?_⟩
          · simp only [List.get_cons_succ]
            simp only [List.get_cons_succ] at hget
            exact hget
          · intro x hx
            rw [List.take_succ_cons, List.take_succ_cons] at hx
            rcases List.mem_cons.mp hx with rfl | hx
            · exact hdlt
            · rcases List.mem_cons.mp hx with rfl | hx
              · exact lt_of_le_of_lt (le_of_not_lt hde) hdlt
              · apply hpre x
                rw [List.take_succ_cons]
                exact .tail _ hx

/-- Every detection absorbed by the inner loop comes from the scanned
list. -/
theorem innerAbsorb_subset (c : ℤ × ℤ) :
    ∀ (l : List (ℕ × Det)) (used : List ℕ) (e : Det),
      e ∈ (innerAbsorb used c l).1 → ∃ q ∈ l, e = q.2 := by
  intro l
  induction l with
  | nil =>
    intro used e h
    rw [innerAbsorb] at h
    cases h
  | cons jd rest ih =>
    intro used e h
    rw [innerAbsorb] at h
    split_ifs at h with h1 h2
    · obtain ⟨q, hq, he⟩ := ih _ _ h
      exact ⟨q, .tail _ hq, he⟩
    · rcases List.mem_cons.mp h with rfl | h
      · exact ⟨jd, .head _, rfl⟩
      · obtain ⟨q, hq, he⟩ := ih _ _ h
        exact ⟨q, .tail _ hq, he⟩
    · obtain ⟨q, hq, he⟩ := ih _ _ h
      exact ⟨q, .tail _ hq, he⟩

/-- The outer loop opens at most one cluster per scanned detection. -/
theorem clusterGroups_length (all : List (ℕ × Det)) :
    ∀ (l : List (ℕ × Det)) (used : List ℕ),
      (clusterGroups all l used).length ≤ l.length := by
  intro l
  induction l with
  | nil =>
    intro used
    rw [clusterGroups]
    exact le_refl _
  | cons hd rest ih =>
    intro used
    obtain ⟨i, d⟩ := hd
    rw [clusterGroups]
    split_ifs with h
    · exact le_trans (ih _) (Nat.le_succ _)
    · simpa using ih _

/-- Every member of every cluster comes from the seed list or the
scanned list. -/
theorem clusterGroups_mem_src (all : List (ℕ × Det)) :
    ∀ (l : List (ℕ × Det)) (used : List ℕ) (c : List Det),
      c ∈ clusterGroups all l used → ∀ e ∈ c,
        (∃ q ∈ l, e = q.2) ∨ ∃ q ∈ all, e = q.2 := by
  intro l
  induction l with
  | nil =>
    intro used c hc
    rw [clusterGroups] at hc
    cases hc
  | cons hd rest ih =>
    intro used c hc e he
    obtain ⟨i, d⟩ := hd
    rw [clusterGroups] at hc
    split_ifs at hc with h1
    · rcases ih _ _ hc e he with ⟨q, hq, hqe⟩ | h
      · exact .inl ⟨q, .tail _ hq, hqe⟩
      · exact .inr h
    · rcases List.mem_cons.mp hc with rfl | hc
      · rcases List.mem_cons.mp he with heq | he
        · exact .inl ⟨(i, d), .head _, heq⟩
        · exact .inr (innerAbsorb_subset _ _ _ _ he)
      · rcases ih _ _ hc e he with ⟨q, hq, hqe⟩ | h
        · exact .inl ⟨q, .tail _ hq, hqe⟩
        · exact .inr h

/-- Clusters are never empty (each holds at least its seed). -/
theorem clusterGroups_ne_nil (all : List (ℕ × Det)) :
    ∀ (l : List (ℕ × Det)) (used : List ℕ) (c : List Det),
      c ∈ clusterGroups all l used → c ≠ [] := by
  intro l
  induction l with
  | nil =>
    intro used c hc
    rw [clusterGroups] at hc
    cases hc
  | cons hd rest ih =>
    intro used c hc
    obtain ⟨i, d⟩ := hd
    rw [clusterGroups] at hc
    split_ifs at hc with h1
    · exact ih _ _ hc
    · rcases List.mem_cons.mp hc with rfl | hc
      · simp
      · exact ih _ _ hc

theorem snd_mem_of_mem_enumFrom {α : Type} :
    ∀ (l : List α) (n : ℕ) (q : ℕ × α), q ∈ l.enumFrom n → q.2 ∈ l := by
  intro l
  induction l with
  | nil =>
    intro n q h
    cases h
  | cons a tl ih =>
    intro n q h
    rw [List.enumFrom] at h
    rcases List.mem_cons.mp h with rfl | h
    · exact .head _
    · exact .tail _ (ih _ _ h)

/-- **C6**: the Cluster Consolidator returns at most as many
detections as it received; each returned detection is an input member,
namely the maximum-area member of its cluster (clusters seeded in
input order, absorbing every not-yet-assigned detection whose center
lies within Euclidean distance `< 10` of the seed center —
`clustersOf`), with the first-encountered member kept on equal area. -/
theorem c6_cluster_consolidator_spec (dets : List Det) :
    (cluster_similar_enemies dets).length ≤ dets.length ∧
    (∀ d ∈ cluster_similar_enemies dets, d ∈ dets) ∧
    cluster_similar_enemies dets = (clustersOf dets).map (fun c =>
      match c with
      | [] => default
      | d :: ds => pickMaxArea d ds) ∧
    (∀ c ∈ clustersOf dets, c ≠ [] ∧ ∀ e ∈ c, e ∈ dets) ∧
    (∀ (d : Det) (ds : List Det),
      pickMaxArea d ds ∈ d :: ds ∧
      (∀ e ∈ d :: ds, e.area ≤ (pickMaxArea d ds).area) ∧
      ∃ i, ∃ h : i < (d :: ds).length,
        (d :: ds).get ⟨i, h⟩ = pickMaxArea d ds ∧
        ∀ e ∈ (d :: ds).take i, e.area < (pickMaxArea d ds).area) := by
  have hmap : cluster_similar_enemies dets = (clustersOf dets).map (fun c =>
      match c with
      | [] => default
      | d :: ds => pickMaxArea d ds) := by
    by_cases hd : dets = []
    · subst hd
      rw [cluster_similar_enemies, if_pos rfl, clustersOf]
      rfl
    · rw [cluster_similar_enemies, if_neg hd]
  have hclus : ∀ c ∈ clustersOf dets, c ≠ [] ∧ ∀ e ∈ c, e ∈ dets := by
    intro c hc
    rw [clustersOf] at hc
    refine ⟨clusterGroups_ne_nil _ _ _ _ hc, ?_⟩
    intro e he
    rcases clusterGroups_mem_src _ _ _ _ hc e he with ⟨q, hq, hqe⟩ | ⟨q, hq, hqe⟩ <;>
      exact hqe ▸ snd_mem_of_mem_enumFrom _ _ _ hq
  refine ⟨?_, ?_, hmap, hclus, fun d ds => pickMaxArea_spec ds d⟩
  · rw [hmap, List.length_map, clustersOf]
    calc (clusterGroups dets.enum dets.enum []).length
        ≤ dets.enum.length := clusterGroups_length _ _ _
      _ = dets.length := List.enum_length
  · intro d hd
    rw [hmap] at hd
    obtain ⟨c, hc, hpick⟩ := List.mem_map.mp hd
    obtain ⟨hne, hsub⟩ := hclus c hc
    match c, hne, hsub, hpick with
    | e :: es, _, hsub, hpick =>
      have := (pickMaxArea_spec es e).1
      exact hsub _ (hpick ▸ this)

/-- Witness for `c6_cluster_consolidator_spec` on two overlapping
detections (centers 2 px apart): one cluster, the larger kept. -/
theorem c6_witness :
    (cluster_similar_enemies [detA, detB]).length ≤ 2 ∧
    detA ∈ cluster_similar_enemies [detA, detB] ∧
    detA ∈ ([detA, detB] : List Det) :=
  ⟨(c6_cluster_consolidator_spec [detA, detB]).1,
   by with_unfolding_all decide,
   (c6_cluster_consolidator_spec [detA, detB]).2.1 detA
     (by with_unfolding_all decide)⟩

/-! ## C7 — empty consolidated set -/

theorem apply_temporal_snd (hist : List (List Det)) (cur : List Det) :
    (apply_temporal_filtering hist cur).2 = cur := by
  rw [apply_temporal_filtering]
  split_ifs with h
  · exact h.symm
  · rfl

theorem detect_with_pxd_patterns_nil (img : Frame) (W H : ℕ) :
    detect_with_pxd_patterns [] img W H = [] := by
  rw [detect_with_pxd_patterns]
  simp

theorem detectedOf_nil (st : Settings) (frame : Frame) (b7 : ℤ) :
    detectedOf st [] frame b7 = [] := by
  rw [detectedOf]
  exact detect_with_pxd_patterns_nil _ _ _

theorem predictFinish_detections (bd hl ed : List DrawCmd) (a : List Det)
    (h1 : List (List Det)) (X1 Y1 aox aoy : ℤ) (sx sy : ℚ) (mo : Bool)
    (pct : ℚ) (b7 b9 : ℤ) (ob : Option Det) :
    (predictFinish bd hl ed a h1 X1 Y1 aox aoy sx sy mo pct b7 b9 ob).detections
      = a := by
  cases ob <;> rfl

theorem predictFinish_best (bd hl ed : List DrawCmd) (a : List Det)
    (h1 : List (List Det)) (X1 Y1 aox aoy : ℤ) (sx sy : ℚ) (mo : Bool)
    (pct : ℚ) (b7 b9 : ℤ) (ob : Option Det) :
    (predictFinish bd hl ed a h1 X1 Y1 aox aoy sx sy mo pct b7 b9 ob).best
      = ob := by
  cases ob <;> rfl

/-- `predict` reports exactly the consolidated detection set of the
cycle. -/
theorem predict_detections (st : Settings) (patterns : List Pattern)
    (hist : List (List Det)) (frame : Frame) (b5 b7 b9 : ℤ) :
    (predict st patterns hist frame b5 b7 b9).detections =
      detectedOf st patterns frame b7 := by
  simp only [predict]
  rw [predictFinish_detections]
  exact apply_temporal_snd _ _

/-- `predict` selects the maximum-area detection (or none). -/
theorem predict_best (st : Settings) (patterns : List Pattern)
    (hist : List (List Det)) (frame : Frame) (b5 b7 b9 : ℤ) :
    (predict st patterns hist frame b5 b7 b9).best =
      pickBest (detectedOf st patterns frame b7) := by
  simp only [predict]
  rw [predictFinish_best, apply_temporal_snd]

theorem predict_zero_of_empty (st : Settings) (patterns : List Pattern)
    (hist : List (List Det)) (frame : Frame) (b5 b7 b9 : ℤ)
    (hD : detectedOf st patterns frame b7 = []) :
    (predict st patterns hist frame b5 b7 b9).rx = 0 ∧
    (predict st patterns hist frame b5 b7 b9).ry = 0 := by
  simp only [predict]
  rw [apply_temporal_snd, hD]
  exact ⟨rfl, rfl⟩

/-- **C7**: when the consolidated detection set of a cycle is empty —
in particular whenever no pattern is active — no target is selected
(`best = none`, so the Lock Vector Engine's branch is never entered)
and the cycle's output vector is `(0, 0)`. -/
theorem c7_empty_detections_zero_output (st : Settings)
    (patterns : List Pattern) (hist : List (List Det)) (frame : Frame)
    (b5 b7 b9 : ℤ) :
    ((predict st [] hist frame b5 b7 b9).detections = [] ∧
     (predict st [] hist frame b5 b7 b9).best = none ∧
     (predict st [] hist frame b5 b7 b9).rx = 0 ∧
     (predict st [] hist frame b5 b7 b9).ry = 0) ∧
    ((predict st patterns hist frame b5 b7 b9).detections = [] →
      (predict st patterns hist frame b5 b7 b9).best = none ∧
      (predict st patterns hist frame b5 b7 b9).rx = 0 ∧
      (predict st patterns hist frame b5 b7 b9).ry = 0) := by
  have hnil : detectedOf st [] frame b7 = [] := detectedOf_nil st frame b7
  constructor
  · obtain ⟨hrx, hry⟩ := predict_zero_of_empty st [] hist frame b5 b7 b9 hnil
    refine ⟨?_, ?_, hrx, hry⟩
    · rw [predict_detections, hnil]
    · rw [predict_best, hnil]
      rfl
  · intro hdet
    rw [predict_detections] at hdet
    obtain ⟨hrx, hry⟩ := predict_zero_of_empty st patterns hist frame b5 b7 b9 hdet
    refine ⟨?_, hrx, hry⟩
    rw [predict_best, hdet]
    rfl

/-- Witness for `c7_empty_detections_zero_output`: default settings,
patterns cleared, black frame; the implication is discharged at the
same cycle. -/
theorem c7_witness :
    (predict stDefault [] [] frameBlack 0 0 0).rx = 0 ∧
    (predict stDefault [] [] frameBlack 0 0 0).best = none ∧
    ((predict stDefault [] [] frameBlack 0 0 0).detections = []) :=
  ⟨(c7_empty_detections_zero_output stDefault [] [] frameBlack 0 0 0).1.2.2.1,
   (c7_empty_detections_zero_output stDefault [] [] frameBlack 0 0 0).2
     (c7_empty_detections_zero_output stDefault [] [] frameBlack 0 0 0).1.1 |>.1,
   (c7_empty_detections_zero_output stDefault [] [] frameBlack 0 0 0).1.1⟩

/-! ## C8 — Region Selector -/

/-- **C8**: the region computed each cycle is the centered rectangle of
the configured dimensions clipped to `[0,1920]×[0,1080]`, the
dimensions pre-scaled by 1.5 exactly when adaptive mode is on and the
aim trigger active (`specRegionSelector`, worded from the spec); a
degenerate clipped rectangle falls back to the full frame, a
nondegenerate one to the ROI crop — no error in either case. -/
theorem c8_region_selector_spec (w h : ℤ) (adaptive : Bool) (b7 : ℤ)
    (f : Frame) :
    computeROI w h adaptive b7 =
      specRegionSelector w h adaptive (decide (0 < b7)) ∧
    (∀ X1 Y1 X2 Y2 : ℤ, ¬(Y1 < Y2 ∧ X1 < X2) →
      selectCrop f X1 Y1 X2 Y2 = (f, 1920, 1080)) ∧
    (∀ X1 Y1 X2 Y2 : ℤ, (Y1 < Y2 ∧ X1 < X2) →
      selectCrop f X1 Y1 X2 Y2 =
        (cropFrame f X1 Y1, (X2 - X1).toNat, (Y2 - Y1).toNat)) := by
  refine ⟨?_, ?_, ?_⟩
  · by_cases hc : adaptive = true ∧ 0 < b7
    · have hc' : adaptive = true ∧ decide (0 < b7) = true :=
        ⟨hc.1, decide_eq_true hc.2⟩
      simp only [computeROI, specRegionSelector, if_pos hc, if_pos hc']
    · have hc' : ¬(adaptive = true ∧ decide (0 < b7) = true) := by
        intro h'
        exact hc ⟨h'.1, of_decide_eq_true h'.2⟩
      simp only [computeROI, specRegionSelector, if_neg hc, if_neg hc']
  · intro X1 Y1 X2 Y2 hx
    rw [selectCrop, if_neg hx]
  · intro X1 Y1 X2 Y2 hx
    rw [selectCrop, if_pos hx]

/-- Witness for `c8_region_selector_spec` on the 8×2 box: ROI equals
the spec rectangle and the nondegenerate branch crops. -/
theorem c8_witness :
    ((539 : ℤ) < 541 ∧ (956 : ℤ) < 964) ∧
    selectCrop frameBlack 956 539 964 541 =
      (cropFrame frameBlack 956 539, ((964 : ℤ) - 956).toNat,
       ((541 : ℤ) - 539).toNat) ∧
    computeROI 8 2 false 0 = specRegionSelector 8 2 false (decide ((0 : ℤ) < 0)) :=
  ⟨⟨by norm_num, by norm_num⟩,
   (c8_region_selector_spec 8 2 false 0 frameBlack).2.2 956 539 964 541
     ⟨by norm_num, by norm_num⟩,
   (c8_region_selector_spec 8 2 false 0 frameBlack).1⟩

/-! ## C9 — overlay flags and the pipeline -/

/-- The overlay-only draw arguments of `predictFinish` have no effect
on the detections, the selected target, or the output vector. -/
theorem predictFinish_draw_irrel (bd bd' hl hl' ed ed' : List DrawCmd)
    (a : List Det) (h1 : List (List Det)) (X1 Y1 aox aoy : ℤ)
    (sx sy : ℚ) (mo : Bool) (pct : ℚ) (b7 b9 : ℤ) (ob : Option Det) :
    (predictFinish bd hl ed a h1 X1 Y1 aox aoy sx sy mo pct b7 b9 ob).detections =
      (predictFinish bd' hl' ed' a h1 X1 Y1 aox aoy sx sy mo pct b7 b9 ob).detections ∧
    (predictFinish bd hl ed a h1 X1 Y1 aox aoy sx sy mo pct b7 b9 ob).best =
      (predictFinish bd' hl' ed' a h1 X1 Y1 aox aoy sx sy mo pct b7 b9 ob).best ∧
    (predictFinish bd hl ed a h1 X1 Y1 aox aoy sx sy mo pct b7 b9 ob).rx =
      (predictFinish bd' hl' ed' a h1 X1 Y1 aox aoy sx sy mo pct b7 b9 ob).rx ∧
    (predictFinish bd hl ed a h1 X1 Y1 aox aoy sx sy mo pct b7 b9 ob).ry =
      (predictFinish bd' hl' ed' a h1 X1 Y1 aox aoy sx sy mo pct b7 b9 ob).ry := by
  cases ob <;> exact ⟨rfl, rfl, rfl, rfl⟩

/-- **C9** (amended): the overlay flags drawn after detection — ESP
lines, ESP boxes, crosshair, distance text, enemy-location — never
feed back into the pipeline: two runs differing only in those flags
produce the same detection set, the same selected target and the same
output vector.  (The show-bounding-box flag is excluded: its rectangle
is written into the frame buffer aliased by the ROI crop before
detection runs, and can change the result — see the counterexample.) -/
theorem c9_overlay_flags_no_feedback (st : Settings) (e1 e2 e3 e4 e5 : Bool)
    (patterns : List Pattern) (hist : List (List Det)) (frame : Frame)
    (b5 b7 b9 : ℤ) :
    (predict { st with
        espLinesEnabled := e1
        espBoxEnabled := e2
        crosshairEnabled := e3
        showDistanceText := e4
        enemyLocationEnabled := e5 } patterns hist frame b5 b7 b9).detections =
      (predict st patterns hist frame b5 b7 b9).detections ∧
    (predict { st with
        espLinesEnabled := e1
        espBoxEnabled := e2
        crosshairEnabled := e3
        showDistanceText := e4
        enemyLocationEnabled := e5 } patterns hist frame b5 b7 b9).best =
      (predict st patterns hist frame b5 b7 b9).best ∧
    (predict { st with
        espLinesEnabled := e1
        espBoxEnabled := e2
        crosshairEnabled := e3
        showDistanceText := e4
        enemyLocationEnabled := e5 } patterns hist frame b5 b7 b9).rx =
      (predict st patterns hist frame b5 b7 b9).rx ∧
    (predict { st with
        espLinesEnabled := e1
        espBoxEnabled := e2
        crosshairEnabled := e3
        showDistanceText := e4
        enemyLocationEnabled := e5 } patterns hist frame b5 b7 b9).ry =
      (predict st patterns hist frame b5 b7 b9).ry := by
  cases st
  simp only [predict]
  apply predictFinish_draw_irrel

/-- **C9** (counterexample to the claim as stated, which names the
show-bounding-box flag as an example): the show-box rectangle is drawn
onto the frame buffer the ROI crop aliases, before detection; on a
frame whose only target blob touches the ROI border, enabling the flag
whitens part of the blob, the component falls below the size bounds,
and both the detection set and the output vector change. -/
theorem c9_counterexample :
    (predict { stC9 with showBoundingBox := true } [patC9] [] frameC9
        0 0 0).detections ≠
      (predict stC9 [patC9] [] frameC9 0 0 0).detections ∧
    (predict { stC9 with showBoundingBox := true } [patC9] [] frameC9
        0 0 0).rx ≠
      (predict stC9 [patC9] [] frameC9 0 0 0).rx := by
  constructor <;> with_unfolding_all decide

/-! ## C10 — color-confidence threshold -/

/-- **C10**: the color-confidence threshold has no effect: the
per-cycle pipeline never invokes the confidence filter
(`simple_detection_sort` embeds it, unused), so two runs differing only
in the cached threshold produce identical `predict` results — drawing
instructions included — and an identical 10-byte payload. -/
theorem c10_color_confidence_no_effect (st : Settings) (c : ℚ)
    (aimBtn : String) (patterns : List Pattern) (hist : List (List Det))
    (frame : Frame) (b5 b7 b9 : ℤ) (gcv : List ℕ) :
    predict { st with colorConfidence := c } patterns hist frame b5 b7 b9 =
      predict st patterns hist frame b5 b7 b9 ∧
    processOut { st with colorConfidence := c } aimBtn patterns hist frame
        b5 b7 b9 gcv =
      processOut st aimBtn patterns hist frame b5 b7 b9 gcv := by
  cases st
  exact ⟨rfl, rfl⟩

end F4Vision
